import Mathlib

/-!
Verification of the YAML pod validator (`src/main.go`) against its
natural-language specification.

The first part of this file is a shallow embedding of the Go source:
the `yaml.Node` tree becomes `YNode`, the validation context's error
list becomes an explicit `List VErr` returned by each validation
routine (errors are appended in exactly the order the Go code calls
`addErr`), and the three regular expressions become executable
character-class matchers.  Go's `range` over a map visits keys in an
unspecified order; the embedding makes the order an explicit parameter
(`checkLabelsWith`, `validateResourceSetWith`) and fixes the
first-occurrence key order as the canonical instantiation.
-/

namespace PodValidator

/-- Kind of a parsed YAML node, mirroring `yaml.Kind` of gopkg.in/yaml.v3
(only the kinds the program inspects). -/
inductive YKind where
  | document
  | mapping
  | sequence
  | scalar
deriving DecidableEq

/-- Shallow embedding of `yaml.Node`: kind, tag (the source-level type tag,
e.g. "!!int" for a bare numeral and "!!str" for a quoted scalar — the Go
code never reads it, but it is part of the parsed tree), raw textual
value, 1-based source line, and children.  For a mapping node the
children alternate key, value, key, value, … exactly as in yaml.v3. -/
inductive YNode where
  | node (kind : YKind) (tag : String) (value : String) (line : Nat) (content : List YNode)

def YNode.kind : YNode → YKind
  | .node k _ _ _ _ => k

def YNode.tag : YNode → String
  | .node _ t _ _ _ => t

def YNode.value : YNode → String
  | .node _ _ v _ _ => v

def YNode.line : YNode → Nat
  | .node _ _ _ l _ => l

def YNode.content : YNode → List YNode
  | .node _ _ _ _ c => c

/-- One diagnostic (`vErr` in the Go source): optional source line and a
rendered message. -/
structure VErr where
  line : Option Nat
  msg : String
deriving DecidableEq

/-- Error anchored at a node's line (`v.addErr(&line, msg)` with
`line := node.Line`). -/
def errAt (l : Nat) (m : String) : VErr := ⟨some l, m⟩

/-- Error for a missing required field (`v.addErr(nil, msg)`). -/
def errReq (m : String) : VErr := ⟨none, m⟩

/-- Key/value pairs of a mapping node's flat content list, mirroring the
loop `for i := 0; i+1 < len(n.Content); i += 2` of `viewMap`. -/
def pairsOf : List YNode → List (YNode × YNode)
  | k :: v :: rest => (k, v) :: pairsOf rest
  | _ => []

/-- Lookup in the field map built by `viewMap`: the Go map assignment
`mv.fields[k.Value] = v` makes the last occurrence of a duplicated key
win, so lookup searches the later pairs first. -/
def mvFind : List (YNode × YNode) → String → Option YNode
  | [], _ => none
  | p :: rest, k =>
    match mvFind rest k with
    | some v => some v
    | none => if p.1.value = k then some p.2 else none

/-- Distinct keys of a pair list in first-occurrence order.  This is the
canonical iteration order chosen for the embedding of `range` over the
Go field map (Go itself leaves the order unspecified). -/
def dedupKeys : List String → List String
  | [] => []
  | k :: rest => k :: (dedupKeys rest).filter (fun j => j ≠ k)

def distinctKeys (ps : List (YNode × YNode)) : List String :=
  dedupKeys (ps.map (fun p => p.1.value))

/-- `getScalarString` of the source: the raw value of a scalar node,
regardless of its source-level tag. -/
def getScalarString (n : YNode) : Option String :=
  if n.kind = YKind.scalar then some n.value else none

/-- `getSequence` of the source. -/
def getSequence (n : YNode) : Option (List YNode) :=
  if n.kind = YKind.sequence then some n.content else none

/-- `getMapping` / `viewMap` of the source, as the key/value pair list. -/
def getMapping (n : YNode) : Option (List (YNode × YNode)) :=
  if n.kind = YKind.mapping then some (pairsOf n.content) else none

/-- Concatenate the errors produced for each element, in element order
(the sequential `for … range` loops of the source). -/
def collectErrs {α : Type} (f : α → List VErr) : List α → List VErr
  | [] => []
  | x :: xs => f x ++ collectErrs f xs

/-! Character classes and matchers for the three anchored regular
expressions of the source.  Each matcher is the exact language of its
regex: the regexes are anchored (`^…$`) and each character class
excludes the delimiters used around it, so matching decomposes
deterministically. -/

def isLowerAlnum (c : Char) : Bool :=
  ('a' ≤ c && c ≤ 'z') || ('0' ≤ c && c ≤ '9')

def isDigitChar (c : Char) : Bool :=
  '0' ≤ c && c ≤ '9'

/-- Character class of `reImage`'s path part: lowercase alphanumerics,
dot, underscore, slash, dash. -/
def isPathChar (c : Char) : Bool :=
  isLowerAlnum c || c == '.' || c == '_' || c == '/' || c == '-'

/-- Character class `[A-Za-z0-9._-]` of `reImage`'s tag part. -/
def isTagChar (c : Char) : Bool :=
  isLowerAlnum c || ('A' ≤ c && c ≤ 'Z') || c == '.' || c == '_' || c == '-'

/-- Prefix test on character lists (first argument is the pattern). -/
def listHasPre : List Char → List Char → Bool
  | [], _ => true
  | _ :: _, [] => false
  | a :: as, b :: bs => a == b && listHasPre as bs

/-- Split a character list at every occurrence of a separator character
(the splitting behaviour of a single-character `strings.Split`). -/
def splitOnChar (sep : Char) : List Char → List (List Char)
  | [] => [[]]
  | c :: rest =>
    if c == sep then [] :: splitOnChar sep rest
    else
      match splitOnChar sep rest with
      | h :: t => (c :: h) :: t
      | [] => [[c]]

/-- Matcher for `reSnakeCase = ^[a-z0-9]+(?:_[a-z0-9]+)*$`: splitting on
underscores, every segment is non-empty and lowercase alphanumeric. -/
def reSnakeCase (s : String) : Bool :=
  (splitOnChar '_' s.data).all (fun seg => !seg.isEmpty && seg.all isLowerAlnum)

/-- Matcher for the source's `reImage` regex (anchored literal prefix
`registry.bigbrother.io/`, then one or more path characters, a colon,
and one or more tag characters): since neither character class contains
a colon, the remainder after the prefix splits at exactly one colon into
a non-empty path and a non-empty tag. -/
def reImage (s : String) : Bool :=
  let pre := "registry.bigbrother.io/".data
  if listHasPre pre s.data then
    match splitOnChar ':' (s.data.drop pre.length) with
    | [p, t] =>
      !p.isEmpty && p.all isPathChar && !t.isEmpty && t.all isTagChar
    | _ => false
  else false

/-- Matcher for `reMem = ^\d+(Gi|Mi|Ki)$`: reading from the right, a
final 'i', one of 'G'/'M'/'K', and a non-empty run of digits making up
the whole rest. -/
def reMem (s : String) : Bool :=
  match s.data.reverse with
  | 'i' :: u :: rest =>
    (u == 'G' || u == 'M' || u == 'K') && !rest.isEmpty && rest.all isDigitChar
  | _ => false

/-- ASCII lower-casing of one character; models Go's `strings.ToLower`
on the ASCII range, which is the range relevant to the `linux`/`windows`
comparisons it feeds. -/
def charLower (c : Char) : Char :=
  if 'A' ≤ c && c ≤ 'Z' then Char.ofNat (c.toNat + 32) else c

def strLower (s : String) : String :=
  ⟨s.data.map charLower⟩

/-- Test for a leading '/': models `strings.HasPrefix(s, "/")`. -/
def hasSlashPre (s : String) : Bool :=
  match s.data with
  | '/' :: _ => true
  | _ => false

/-- Numeric value of a digit string; `none` when empty or containing a
non-digit. -/
def digitsVal (cs : List Char) : Option Nat :=
  if cs.isEmpty then none
  else if cs.all isDigitChar then
    some (cs.foldl (fun a c => 10 * a + (c.toNat - '0'.toNat)) 0)
  else none

/-- Model of Go's `strconv.Atoi`: optional sign, one or more decimal
digits, nothing else, and the value must fit a 64-bit `int` (outside
that range `Atoi` reports an error, which the program treats the same
as a parse failure). -/
def goAtoi (s : String) : Option Int :=
  let sd :=
    match s.data with
    | '+' :: rest => (false, rest)
    | '-' :: rest => (true, rest)
    | cs => (false, cs)
  match digitsVal sd.2 with
  | none => none
  | some n =>
    let v : Int := if sd.1 then -(n : Int) else (n : Int)
    if -(2 ^ 63) ≤ v ∧ v ≤ 2 ^ 63 - 1 then some v else none

/-- `portInRange` of the source: `p > 0 && p < 65536`. -/
def portInRange (p : Int) : Bool :=
  decide (0 < p ∧ p < 65536)

/-! The validation routines, translated block by block from the Go
source.  Each `check…` definition is one sequential block of its Go
routine; the routine itself concatenates the blocks in source order. -/

/-- The `apiVersion` block of `validateTop`. -/
def checkApiVersion (ps : List (YNode × YNode)) : List VErr :=
  match mvFind ps "apiVersion" with
  | none => [errReq "apiVersion is required"]
  | some n =>
    match getScalarString n with
    | none => [errAt n.line "apiVersion must be string"]
    | some s =>
      if s = "v1" then []
      else [errAt n.line ("apiVersion has unsupported value '" ++ s ++ "'")]

/-- The `kind` block of `validateTop`. -/
def checkKind (ps : List (YNode × YNode)) : List VErr :=
  match mvFind ps "kind" with
  | none => [errReq "kind is required"]
  | some n =>
    match getScalarString n with
    | none => [errAt n.line "kind must be string"]
    | some s =>
      if s = "Pod" then []
      else [errAt n.line ("kind has unsupported value '" ++ s ++ "'")]

/-- The `name` block of `validateObjectMeta`. -/
def checkMetaName (ps : List (YNode × YNode)) : List VErr :=
  match mvFind ps "name" with
  | none => [errReq "metadata.name is required"]
  | some n =>
    match getScalarString n with
    | none => [errAt n.line "metadata.name must be string"]
    | some _ => []

/-- The `namespace` block of `validateObjectMeta`. -/
def checkMetaNamespace (ps : List (YNode × YNode)) : List VErr :=
  match mvFind ps "namespace" with
  | none => []
  | some n =>
    match getScalarString n with
    | none => [errAt n.line "metadata.namespace must be string"]
    | some _ => []

/-- The body of the `for k, val := range lmv.fields` loop over the
`labels` mapping, with the iteration order passed explicitly (Go leaves
the order of `range` over a map unspecified). -/
def checkLabelsWith (lps : List (YNode × YNode)) (keys : List String) : List VErr :=
  collectErrs
    (fun k =>
      match mvFind lps k with
      | none => []
      | some v =>
        match getScalarString v with
        | none => [errAt v.line ("metadata.labels." ++ k ++ " must be string")]
        | some _ => []) keys

/-- The `labels` block of `validateObjectMeta`, at the canonical key
order. -/
def checkMetaLabels (ps : List (YNode × YNode)) : List VErr :=
  match mvFind ps "labels" with
  | none => []
  | some n =>
    match getMapping n with
    | none => [errAt n.line "metadata.labels must be object"]
    | some lps => checkLabelsWith lps (distinctKeys lps)

/-- `validateObjectMeta` of the source. -/
def validateObjectMeta (n : YNode) : List VErr :=
  match getMapping n with
  | none => [errAt n.line "metadata must be object"]
  | some ps => checkMetaName ps ++ checkMetaNamespace ps ++ checkMetaLabels ps

/-- The `containerPort` block of `validateContainerPort`. -/
def checkContainerPort (ps : List (YNode × YNode)) : List VErr :=
  match mvFind ps "containerPort" with
  | none => [errReq "containers.ports.containerPort is required"]
  | some n =>
    match getScalarString n with
    | none => [errAt n.line "containers.ports.containerPort must be int"]
    | some s =>
      match goAtoi s with
      | none => [errAt n.line "containers.ports.containerPort must be int"]
      | some v =>
        if portInRange v then []
        else [errAt n.line "containers.ports.containerPort value out of range"]

/-- The `protocol` block of `validateContainerPort`. -/
def checkProtocol (ps : List (YNode × YNode)) : List VErr :=
  match mvFind ps "protocol" with
  | none => []
  | some n =>
    match getScalarString n with
    | none => [errAt n.line "containers.ports.protocol must be string"]
    | some s =>
      if s = "TCP" ∨ s = "UDP" then []
      else [errAt n.line ("containers.ports.protocol has unsupported value '" ++ s ++ "'")]

/-- `validateContainerPort` of the source. -/
def validateContainerPort (n : YNode) : List VErr :=
  match getMapping n with
  | none => [errAt n.line "containers.ports[] must be object"]
  | some ps => checkContainerPort ps ++ checkProtocol ps

/-- The `path` block of `validateHTTPGet`. -/
def checkHGPath (pfx : String) (ps : List (YNode × YNode)) : List VErr :=
  match mvFind ps "path" with
  | none => [errReq (pfx ++ ".path is required")]
  | some n =>
    match getScalarString n with
    | none => [errAt n.line (pfx ++ ".path must be string")]
    | some s =>
      if hasSlashPre s then []
      else [errAt n.line (pfx ++ ".path has invalid format '" ++ s ++ "'")]

/-- The `port` block of `validateHTTPGet`. -/
def checkHGPort (pfx : String) (ps : List (YNode × YNode)) : List VErr :=
  match mvFind ps "port" with
  | none => [errReq (pfx ++ ".port is required")]
  | some n =>
    match getScalarString n with
    | none => [errAt n.line (pfx ++ ".port must be int")]
    | some s =>
      match goAtoi s with
      | none => [errAt n.line (pfx ++ ".port must be int")]
      | some v =>
        if portInRange v then []
        else [errAt n.line (pfx ++ ".port value out of range")]

/-- `validateHTTPGet` of the source. -/
def validateHTTPGet (pfx : String) (n : YNode) : List VErr :=
  match getMapping n with
  | none => [errAt n.line (pfx ++ " must be object")]
  | some ps => checkHGPath pfx ps ++ checkHGPort pfx ps

/-- `validateProbe` of the source: when `httpGet` is absent the routine
records the single required-field error and returns at once. -/
def validateProbe (pfx : String) (n : YNode) : List VErr :=
  match getMapping n with
  | none => [errAt n.line (pfx ++ " must be object")]
  | some ps =>
    match mvFind ps "httpGet" with
    | none => [errReq (pfx ++ ".httpGet is required")]
    | some hg => validateHTTPGet (pfx ++ ".httpGet") hg

/-- The body of the `switch key` inside `validateResourceSet`'s loop:
`cpu` must be a scalar whose text `Atoi`-parses, `memory` a scalar
matching `reMem`, any other key is ignored. -/
def checkResourceKey (pfx : String) (ps : List (YNode × YNode)) (k : String) : List VErr :=
  match mvFind ps k with
  | none => []
  | some v =>
    if k = "cpu" then
      match getScalarString v with
      | none => [errAt v.line (pfx ++ ".cpu must be int")]
      | some s =>
        match goAtoi s with
        | none => [errAt v.line (pfx ++ ".cpu must be int")]
        | some _ => []
    else if k = "memory" then
      match getScalarString v with
      | none => [errAt v.line (pfx ++ ".memory must be string")]
      | some s =>
        if reMem s then []
        else [errAt v.line (pfx ++ ".memory has invalid format '" ++ s ++ "'")]
    else []

/-- The `for key, val := range mv.fields` loop of `validateResourceSet`,
with the key iteration order explicit. -/
def validateResourceSetWith (pfx : String) (ps : List (YNode × YNode))
    (keys : List String) : List VErr :=
  collectErrs (checkResourceKey pfx ps) keys

/-- `validateResourceSet` of the source, at the canonical key order. -/
def validateResourceSet (pfx : String) (n : YNode) : List VErr :=
  match getMapping n with
  | none => [errAt n.line (pfx ++ " must be object")]
  | some ps => validateResourceSetWith pfx ps (distinctKeys ps)

/-- `validateResources` of the source. -/
def validateResources (n : YNode) : List VErr :=
  match getMapping n with
  | none => [errAt n.line "containers.resources must be object"]
  | some ps =>
    (match mvFind ps "requests" with
     | none => []
     | some r => validateResourceSet "containers.resources.requests" r) ++
    (match mvFind ps "limits" with
     | none => []
     | some r => validateResourceSet "containers.resources.limits" r)

/-- The `name` block of `validateContainer`. -/
def checkContainerName (ps : List (YNode × YNode)) : List VErr :=
  match mvFind ps "name" with
  | none => [errReq "containers.name is required"]
  | some n =>
    match getScalarString n with
    | none => [errAt n.line "containers.name must be string"]
    | some s =>
      if reSnakeCase s then []
      else [errAt n.line ("containers.name has invalid format '" ++ s ++ "'")]

/-- The `image` block of `validateContainer`. -/
def checkImage (ps : List (YNode × YNode)) : List VErr :=
  match mvFind ps "image" with
  | none => [errReq "containers.image is required"]
  | some n =>
    match getScalarString n with
    | none => [errAt n.line "containers.image must be string"]
    | some s =>
      if reImage s then []
      else [errAt n.line ("containers.image has invalid format '" ++ s ++ "'")]

/-- The `ports` block of `validateContainer`. -/
def checkPorts (ps : List (YNode × YNode)) : List VErr :=
  match mvFind ps "ports" with
  | none => []
  | some n =>
    match getSequence n with
    | none => [errAt n.line "containers.ports must be array"]
    | some seq => collectErrs validateContainerPort seq

/-- The `readinessProbe` block of `validateContainer`. -/
def checkReadiness (ps : List (YNode × YNode)) : List VErr :=
  match mvFind ps "readinessProbe" with
  | none => []
  | some n => validateProbe "containers.readinessProbe" n

/-- The `livenessProbe` block of `validateContainer`. -/
def checkLiveness (ps : List (YNode × YNode)) : List VErr :=
  match mvFind ps "livenessProbe" with
  | none => []
  | some n => validateProbe "containers.livenessProbe" n

/-- The `resources` block of `validateContainer`. -/
def checkResourcesField (ps : List (YNode × YNode)) : List VErr :=
  match mvFind ps "resources" with
  | none => [errReq "containers.resources is required"]
  | some n => validateResources n

/-- `validateContainer` of the source. -/
def validateContainer (n : YNode) : List VErr :=
  match getMapping n with
  | none => [errAt n.line "containers[] must be object"]
  | some ps =>
    checkContainerName ps ++ checkImage ps ++ checkPorts ps ++
      checkReadiness ps ++ checkLiveness ps ++ checkResourcesField ps

/-- The `os` block of `validatePodSpec`. -/
def checkOs (ps : List (YNode × YNode)) : List VErr :=
  match mvFind ps "os" with
  | none => []
  | some n =>
    match n.kind with
    | YKind.scalar =>
      if strLower n.value = "linux" ∨ strLower n.value = "windows" then []
      else [errAt n.line ("spec.os has unsupported value '" ++ n.value ++ "'")]
    | YKind.mapping =>
      (match mvFind (pairsOf n.content) "name" with
       | none => [errReq "spec.os.name is required"]
       | some nn =>
         match getScalarString nn with
         | none => [errAt nn.line "spec.os.name must be string"]
         | some s =>
           if strLower s = "linux" ∨ strLower s = "windows" then []
           else [errAt nn.line ("spec.os.name has unsupported value '" ++ s ++ "'")])
    | _ => [errAt n.line "spec.os must be string or object"]

/-- The `containers` block of `validatePodSpec`: the empty-sequence
error is recorded and the (empty) iteration still runs. -/
def checkContainers (ps : List (YNode × YNode)) : List VErr :=
  match mvFind ps "containers" with
  | none => [errReq "spec.containers is required"]
  | some n =>
    match getSequence n with
    | none => [errAt n.line "spec.containers must be array"]
    | some seq =>
      (if seq.isEmpty then [errAt n.line "spec.containers must not be empty"] else []) ++
        collectErrs validateContainer seq

/-- `validatePodSpec` of the source. -/
def validatePodSpec (n : YNode) : List VErr :=
  match getMapping n with
  | none => [errAt n.line "spec must be object"]
  | some ps => checkOs ps ++ checkContainers ps

/-- The `metadata` block of `validateTop`. -/
def checkMetadataField (ps : List (YNode × YNode)) : List VErr :=
  match mvFind ps "metadata" with
  | none => [errReq "metadata is required"]
  | some n => validateObjectMeta n

/-- The `spec` block of `validateTop`. -/
def checkSpecField (ps : List (YNode × YNode)) : List VErr :=
  match mvFind ps "spec" with
  | none => [errReq "spec is required"]
  | some n => validatePodSpec n

/-- `validateTop` of the source: the root must be a document node with
content, its first child must be a mapping, and then the four root
checks run unconditionally in order. -/
def validateTop (root : YNode) : List VErr :=
  match root.kind, root.content with
  | YKind.document, obj :: _ =>
    (match getMapping obj with
     | none => [errAt obj.line "document must be mapping"]
     | some ps =>
       checkApiVersion ps ++ checkKind ps ++ checkMetadataField ps ++ checkSpecField ps)
  | _, _ => [errReq "document is required"]

/-- Rendering of one diagnostic by `flush`: positioned errors print
`<filename>:<line> <message>`, required-field errors print
`<filename>: <message>`. -/
def renderErr (fn : String) (e : VErr) : String :=
  match e.line with
  | some l => fn ++ ":" ++ toString l ++ " " ++ e.msg
  | none => fn ++ ": " ++ e.msg

/-- `flush` of the source: one output line per diagnostic, in insertion
order. -/
def flush (fn : String) : List VErr → List String
  | [] => []
  | e :: rest => renderErr fn e :: flush fn rest

/-- Exit-code selection of `main`: 0 when no diagnostics were recorded,
1 otherwise. -/
def exitCode (root : YNode) : Nat :=
  if (validateTop root).isEmpty then 0 else 1

/-! Concrete node constructors for witnesses and counterexamples. -/

/-- Scalar that the author wrote as a quoted string (string source tag). -/
def strScalar (v : String) (l : Nat) : YNode :=
  YNode.node YKind.scalar "!!str" v l []

/-- Scalar that the author wrote as a bare numeral (integer source tag). -/
def intScalar (v : String) (l : Nat) : YNode :=
  YNode.node YKind.scalar "!!int" v l []

def mapNode (l : Nat) (cs : List YNode) : YNode :=
  YNode.node YKind.mapping "" "" l cs

def seqNode (l : Nat) (cs : List YNode) : YNode :=
  YNode.node YKind.sequence "" "" l cs

def docNode (cs : List YNode) : YNode :=
  YNode.node YKind.document "" "" 0 cs

/-- Resource set `{ cpu: "4" }` where the cpu value is a quoted (hence
string-tagged) numeric scalar at line 3. -/
def cpuQuotedSet : YNode := mapNode 2 [strScalar "cpu" 3, strScalar "4" 3]

/-- C1 counterexample: on the resource set `{ cpu: "4" }` with a quoted,
string-tagged value the validator records no diagnostic at all — not the
claimed single "cpu must be int" diagnostic at the value's line.  The
source's cpu check reads only the scalar's text (`getScalarString` plus
`strconv.Atoi`) and never consults the source-level type tag, so a
quoted numeric string is accepted. -/
theorem c1_quoted_cpu_accepted :
    validateResourceSet "containers.resources.requests" cpuQuotedSet = [] ∧
    validateResourceSet "containers.resources.requests" cpuQuotedSet ≠
      [errAt 3 "containers.resources.requests.cpu must be int"] := by
  exact ⟨by decide, by decide⟩

/-- Labels mapping content with two non-string (sequence) values, keys
`a` (line 2) and `b` (line 3). -/
def badLabelPairs : List (YNode × YNode) :=
  [(strScalar "a" 2, seqNode 2 []), (strScalar "b" 3, seqNode 3 [])]

/-- Resource-set mapping content with a non-scalar `cpu` value (line 11)
and a non-scalar `memory` value (line 12). -/
def badResourcePairs : List (YNode × YNode) :=
  [(strScalar "cpu" 11, seqNode 11 []), (strScalar "memory" 12, seqNode 12 [])]

/-- C2: the diagnostic list is NOT independent of the key order in which
the Go `range` loops of `validateObjectMeta` (labels) and
`validateResourceSet` visit their field maps.  Both orders shown are
permutations of the keys, hence both are admissible iteration orders of
the Go map, yet they produce the diagnostics in different orders — so
two runs on the same bytes can differ, contradicting the determinism
contract. -/
theorem c2_map_iteration_order_observable :
    (checkLabelsWith badLabelPairs ["a", "b"] ≠
        checkLabelsWith badLabelPairs ["b", "a"] ∧
      List.Perm ["b", "a"] (distinctKeys badLabelPairs)) ∧
    (validateResourceSetWith "containers.resources.requests" badResourcePairs
        ["cpu", "memory"] ≠
        validateResourceSetWith "containers.resources.requests" badResourcePairs
          ["memory", "cpu"] ∧
      List.Perm ["memory", "cpu"] (distinctKeys badResourcePairs)) := by
  exact ⟨⟨by decide, by decide⟩, ⟨by decide, by decide⟩⟩

/-- C9 counterexample: a required-field diagnostic is flushed as
`<filename>: <message>` (the else-branch of `flush` prints the filename
and a colon), not as the bare `<message>` the claim states. -/
theorem c9_missing_field_line_has_filename :
    flush "pod.yaml" [errReq "spec is required"] = ["pod.yaml: spec is required"] ∧
    flush "pod.yaml" [errReq "spec is required"] ≠ ["spec is required"] := by
  exact ⟨by decide, by decide⟩

/-- C9 amended: flushing produces exactly one output line per diagnostic,
in insertion order; a positioned diagnostic renders as
`<filename>:<line> <message>` and a required-field diagnostic without a
position renders as `<filename>: <message>`. -/
theorem c9_flush_format (fn : String) (errs : List VErr) :
    flush fn errs = errs.map (fun e =>
      match e.line with
      | some l => fn ++ ":" ++ toString l ++ " " ++ e.msg
      | none => fn ++ ": " ++ e.msg) := by
  induction errs with
  | nil => rfl
  | cons e rest ih => simp [flush, renderErr, ih]

/-- Probe node that is an empty mapping: both `httpGet` and (inside it)
`path` are missing. -/
def emptyProbe : YNode := mapNode 5 []

/-- C6 counterexample: for a probe that is a mapping missing `httpGet`,
`validateProbe` records only the httpGet-required diagnostic and returns
— no path-is-required diagnostic is ever produced, contradicting the
claim that a probe missing `path` always yields one even when `httpGet`
is also missing. -/
theorem c6_no_path_diag_without_httpget :
    validateProbe "containers.readinessProbe" emptyProbe =
      [errReq "containers.readinessProbe.httpGet is required"] ∧
    ∀ e ∈ validateProbe "containers.readinessProbe" emptyProbe,
      e.msg ≠ "containers.readinessProbe.httpGet.path is required" ∧
      e.msg ≠ "containers.readinessProbe.path is required" := by
  exact ⟨by decide, by decide⟩

/-- C6 amended: `path` is a required field of the probe's `httpGet`
mapping, not of the probe itself.  When `httpGet` is missing the probe
yields exactly the httpGet-required diagnostic and no path diagnostic;
when `httpGet` is present and a mapping, a missing `path` yields the
path-is-required diagnostic; and a present scalar `path` not starting
with '/' yields an invalid-format diagnostic at its line. -/
theorem c6_path_required_inside_httpget :
    (∀ (pfx : String) (n : YNode) (ps : List (YNode × YNode)),
        getMapping n = some ps → mvFind ps "httpGet" = none →
        validateProbe pfx n = [errReq (pfx ++ ".httpGet is required")]) ∧
    (∀ (pfx : String) (n hg : YNode) (ps hps : List (YNode × YNode)),
        getMapping n = some ps → mvFind ps "httpGet" = some hg →
        getMapping hg = some hps → mvFind hps "path" = none →
        errReq (pfx ++ ".httpGet" ++ ".path is required") ∈ validateProbe pfx n) ∧
    (∀ (pfx : String) (n hg pn : YNode) (ps hps : List (YNode × YNode)),
        getMapping n = some ps → mvFind ps "httpGet" = some hg →
        getMapping hg = some hps → mvFind hps "path" = some pn →
        pn.kind = YKind.scalar → ¬ (hasSlashPre pn.value = true) →
        errAt pn.line (pfx ++ ".httpGet" ++ ".path has invalid format '" ++ pn.value ++ "'")
          ∈ validateProbe pfx n) := by
  refine ⟨?_, ?_, ?_⟩
  · intro pfx n ps hm hf
    simp [validateProbe, hm, hf]
  · intro pfx n hg ps hps hm hf hhm hpf
    simp [validateProbe, hm, hf, validateHTTPGet, hhm, checkHGPath, hpf, errReq]
  · intro pfx n hg pn ps hps hm hf hhm hpf hk hs
    simp [validateProbe, hm, hf, validateHTTPGet, hhm, checkHGPath, hpf,
      getScalarString, hk, hs, errAt]

/-- Witness for the amended C6 theorem at concrete probes. -/
theorem c6_path_required_inside_httpget_witness :
    (validateProbe "containers.readinessProbe" emptyProbe =
      [errReq "containers.readinessProbe.httpGet is required"]) ∧
    (errReq "containers.readinessProbe.httpGet.path is required" ∈
      validateProbe "containers.readinessProbe"
        (mapNode 5 [strScalar "httpGet" 5,
          mapNode 6 [strScalar "port" 6, intScalar "80" 6]])) ∧
    (errAt 7 "containers.readinessProbe.httpGet.path has invalid format 'health'" ∈
      validateProbe "containers.readinessProbe"
        (mapNode 5 [strScalar "httpGet" 5,
          mapNode 6 [strScalar "path" 7, strScalar "health" 7]])) := by
  refine ⟨?_, ?_, ?_⟩
  · exact c6_path_required_inside_httpget.1 "containers.readinessProbe" emptyProbe []
      rfl rfl
  · exact c6_path_required_inside_httpget.2.1 "containers.readinessProbe"
      (mapNode 5 [strScalar "httpGet" 5,
        mapNode 6 [strScalar "port" 6, intScalar "80" 6]])
      (mapNode 6 [strScalar "port" 6, intScalar "80" 6])
      [(strScalar "httpGet" 5, mapNode 6 [strScalar "port" 6, intScalar "80" 6])]
      [(strScalar "port" 6, intScalar "80" 6)] rfl rfl rfl rfl
  · exact c6_path_required_inside_httpget.2.2 "containers.readinessProbe"
      (mapNode 5 [strScalar "httpGet" 5,
        mapNode 6 [strScalar "path" 7, strScalar "health" 7]])
      (mapNode 6 [strScalar "path" 7, strScalar "health" 7])
      (strScalar "health" 7)
      [(strScalar "httpGet" 5, mapNode 6 [strScalar "path" 7, strScalar "health" 7])]
      [(strScalar "path" 7, strScalar "health" 7)]
      rfl rfl rfl rfl rfl (by decide)

/-! Claim C5: image format. -/

/-- Container with snake_case name, the image
`registry.bigbrother.io/my_app:v1` whose path contains an underscore,
and an empty (hence valid) resources mapping. -/
def underscoreImageContainer : YNode := mapNode 7
  [strScalar "name" 7, strScalar "app" 7,
   strScalar "image" 8, strScalar "registry.bigbrother.io/my_app:v1" 8,
   strScalar "resources" 9, mapNode 9 []]

/-- C5 counterexample: the image `registry.bigbrother.io/my_app:v1` has an
underscore in its path segment, which the claim says must be rejected;
the code's regex path class contains the underscore, so the container
validates with no diagnostic at all. -/
theorem c5_underscore_path_accepted :
    validateContainer underscoreImageContainer = [] ∧
    ¬ errAt 8 "containers.image has invalid format 'registry.bigbrother.io/my_app:v1'"
        ∈ validateContainer underscoreImageContainer := by
  exact ⟨by decide, by decide⟩

/-- Modelled on the amended claim's words: `registry.bigbrother.io/<path>:<tag>`
where the path consists of lowercase alphanumerics, dots, dashes,
underscores and slashes, and the tag of alphanumerics of either case,
dots, dashes and underscores. -/
def specAmendedPathChar (c : Char) : Bool :=
  ('a' ≤ c && c ≤ 'z') || ('0' ≤ c && c ≤ '9') ||
    c == '.' || c == '-' || c == '_' || c == '/'

def specAmendedTagChar (c : Char) : Bool :=
  ('a' ≤ c && c ≤ 'z') || ('A' ≤ c && c ≤ 'Z') || ('0' ≤ c && c ≤ '9') ||
    c == '.' || c == '-' || c == '_'

def specAmendedImage (s : String) : Bool :=
  if listHasPre "registry.bigbrother.io/".data s.data then
    match splitOnChar ':' (s.data.drop "registry.bigbrother.io/".data.length) with
    | [p, t] =>
      !p.isEmpty && p.all specAmendedPathChar && !t.isEmpty && t.all specAmendedTagChar
    | _ => false
  else false

theorem specAmendedPathChar_agree (c : Char) : specAmendedPathChar c = isPathChar c := by
  rw [Bool.eq_iff_iff]
  simp only [specAmendedPathChar, isPathChar, isLowerAlnum, Bool.or_eq_true,
    Bool.and_eq_true, decide_eq_true_eq, beq_iff_eq]
  tauto

theorem specAmendedTagChar_agree (c : Char) : specAmendedTagChar c = isTagChar c := by
  rw [Bool.eq_iff_iff]
  simp only [specAmendedTagChar, isTagChar, isLowerAlnum, Bool.or_eq_true,
    Bool.and_eq_true, decide_eq_true_eq, beq_iff_eq]
  tauto

theorem specAmendedImage_eq (s : String) : specAmendedImage s = reImage s := by
  have hp : specAmendedPathChar = isPathChar := funext specAmendedPathChar_agree
  have ht : specAmendedTagChar = isTagChar := funext specAmendedTagChar_agree
  simp only [specAmendedImage, reImage, hp, ht]

/-- C5 amended: a present scalar `image` value is accepted (no diagnostic)
if and only if it matches `registry.bigbrother.io/<path>:<tag>` where the
path consists of lowercase alphanumerics, dots, dashes, underscores and
slashes and the tag of alphanumerics (either case), dots, dashes and
underscores; otherwise the invalid-format diagnostic is recorded at the
value's line. -/
theorem c5_image_format (ps : List (YNode × YNode)) (n : YNode)
    (h : mvFind ps "image" = some n) (hk : n.kind = YKind.scalar) :
    checkImage ps =
      if specAmendedImage n.value then []
      else [errAt n.line ("containers.image has invalid format '" ++ n.value ++ "'")] := by
  rw [specAmendedImage_eq]
  simp only [checkImage, h, getScalarString, hk, if_pos]

/-- Witness for the amended C5 theorem: a well-formed image is accepted,
a malformed one (uppercase path) is rejected at its line. -/
theorem c5_image_format_witness :
    checkImage [(strScalar "image" 8, strScalar "registry.bigbrother.io/team/app:v1.2" 8)]
      = [] ∧
    checkImage [(strScalar "image" 9, strScalar "registry.bigbrother.io/App:v1" 9)]
      = [errAt 9 "containers.image has invalid format 'registry.bigbrother.io/App:v1'"] := by
  constructor
  · exact (c5_image_format
      [(strScalar "image" 8, strScalar "registry.bigbrother.io/team/app:v1.2" 8)]
      (strScalar "registry.bigbrother.io/team/app:v1.2" 8) rfl rfl).trans (by decide)
  · exact (c5_image_format
      [(strScalar "image" 9, strScalar "registry.bigbrother.io/App:v1" 9)]
      (strScalar "registry.bigbrother.io/App:v1" 9) rfl rfl).trans (by decide)

/-! Claim C7: containerPort parsing and range. -/

/-- C7: for a present scalar `containerPort`, a non-`Atoi`-parsing text
yields exactly the must-be-int diagnostic; a parsed value v yields the
out-of-range diagnostic exactly when v is not strictly between 0 and
65536; and the two diagnostics are never both recorded for one value. -/
theorem c7_containerPort_diagnostics (ps : List (YNode × YNode)) (n : YNode)
    (h : mvFind ps "containerPort" = some n) (hk : n.kind = YKind.scalar) :
    (checkContainerPort ps =
      match goAtoi n.value with
      | none => [errAt n.line "containers.ports.containerPort must be int"]
      | some v =>
        if 0 < v ∧ v < 65536 then []
        else [errAt n.line "containers.ports.containerPort value out of range"]) ∧
    (∀ v : Int, goAtoi n.value = some v →
      (errAt n.line "containers.ports.containerPort value out of range"
          ∈ checkContainerPort ps ↔ ¬ (0 < v ∧ v < 65536))) ∧
    ¬ (errAt n.line "containers.ports.containerPort must be int" ∈ checkContainerPort ps ∧
       errAt n.line "containers.ports.containerPort value out of range"
         ∈ checkContainerPort ps) := by
  have hcp : checkContainerPort ps =
      match goAtoi n.value with
      | none => [errAt n.line "containers.ports.containerPort must be int"]
      | some v =>
        if 0 < v ∧ v < 65536 then []
        else [errAt n.line "containers.ports.containerPort value out of range"] := by
    simp only [checkContainerPort, h, getScalarString, hk, if_pos]
    cases hg : goAtoi n.value with
    | none => rfl
    | some v => simp [portInRange]
  refine ⟨hcp, ?_, ?_⟩
  · intro v hv
    rw [hcp, hv]
    by_cases hr : 0 < v ∧ v < 65536 <;> simp [hr, errAt]
  · rw [hcp]
    cases hg : goAtoi n.value with
    | none => simp [errAt]
    | some v =>
      by_cases hr : 0 < v ∧ v < 65536 <;> simp [hr, errAt]

/-- Witness for C7 at the out-of-range value 70000 and the non-numeric
value "http". -/
theorem c7_containerPort_diagnostics_witness :
    checkContainerPort [(strScalar "containerPort" 4, intScalar "70000" 4)] =
      [errAt 4 "containers.ports.containerPort value out of range"] ∧
    checkContainerPort [(strScalar "containerPort" 5, strScalar "http" 5)] =
      [errAt 5 "containers.ports.containerPort must be int"] := by
  constructor
  · exact (c7_containerPort_diagnostics
      [(strScalar "containerPort" 4, intScalar "70000" 4)]
      (intScalar "70000" 4) rfl rfl).1.trans (by decide)
  · exact (c7_containerPort_diagnostics
      [(strScalar "containerPort" 5, strScalar "http" 5)]
      (strScalar "http" 5) rfl rfl).1.trans (by decide)

/-! Claim C4: independence and order of the four root checks. -/

/-- C4: for a root mapping with valid `apiVersion`/`kind`, a metadata
mapping with no `name` (and no `namespace`/`labels`) and no `spec`, the
run records exactly "metadata.name is required" then "spec is required",
both without line numbers; and when `apiVersion` and `kind` are also
absent, metadata and spec validation still run, appending their
diagnostics after the two required-field diagnostics of apiVersion and
kind — missing earlier fields never suppress the later checks. -/
theorem c4_root_checks_independent :
    (∀ (dt dv : String) (dl : Nat) (obj : YNode) (rest : List YNode)
        (ps mps : List (YNode × YNode)) (a k m : YNode),
      getMapping obj = some ps →
      mvFind ps "apiVersion" = some a → a.kind = YKind.scalar → a.value = "v1" →
      mvFind ps "kind" = some k → k.kind = YKind.scalar → k.value = "Pod" →
      mvFind ps "metadata" = some m → getMapping m = some mps →
      mvFind mps "name" = none → mvFind mps "namespace" = none →
      mvFind mps "labels" = none →
      mvFind ps "spec" = none →
      validateTop (YNode.node YKind.document dt dv dl (obj :: rest)) =
        [errReq "metadata.name is required", errReq "spec is required"]) ∧
    (∀ (dt dv : String) (dl : Nat) (obj : YNode) (rest : List YNode)
        (ps mps : List (YNode × YNode)) (m : YNode),
      getMapping obj = some ps →
      mvFind ps "apiVersion" = none →
      mvFind ps "kind" = none →
      mvFind ps "metadata" = some m → getMapping m = some mps →
      mvFind mps "name" = none → mvFind mps "namespace" = none →
      mvFind mps "labels" = none →
      mvFind ps "spec" = none →
      validateTop (YNode.node YKind.document dt dv dl (obj :: rest)) =
        [errReq "apiVersion is required", errReq "kind is required",
         errReq "metadata.name is required", errReq "spec is required"]) := by
  constructor
  · intro dt dv dl obj rest ps mps a k m h0 h1 h1k h1v h2 h2k h2v h3 h3m h3n h3ns h3l h4
    have ha : getScalarString a = some "v1" := by
      simp [getScalarString, h1k, h1v]
    have hk : getScalarString k = some "Pod" := by
      simp [getScalarString, h2k, h2v]
    simp [validateTop, YNode.kind, YNode.content, h0, checkApiVersion, h1, ha,
      checkKind, h2, hk, checkMetadataField, h3, validateObjectMeta, h3m,
      checkMetaName, h3n, checkMetaNamespace, h3ns, checkMetaLabels, h3l,
      checkSpecField, h4]
  · intro dt dv dl obj rest ps mps m h0 h1 h2 h3 h3m h3n h3ns h3l h4
    simp [validateTop, YNode.kind, YNode.content, h0, checkApiVersion, h1,
      checkKind, h2, checkMetadataField, h3, validateObjectMeta, h3m,
      checkMetaName, h3n, checkMetaNamespace, h3ns, checkMetaLabels, h3l,
      checkSpecField, h4]

/-- Document with valid apiVersion/kind, metadata `{labels2: x}` (no
name), and no spec. -/
def missingNameSpecDoc : YNode := docNode [mapNode 1
  [strScalar "apiVersion" 1, strScalar "v1" 1,
   strScalar "kind" 2, strScalar "Pod" 2,
   strScalar "metadata" 3, mapNode 4 [strScalar "annotations" 4, strScalar "x" 4]]]

/-- Document with only a name-less metadata mapping. -/
def bareMetadataDoc : YNode := docNode [mapNode 1
  [strScalar "metadata" 1, mapNode 2 [strScalar "annotations" 2, strScalar "x" 2]]]

/-- Witness for C4 at two concrete documents. -/
theorem c4_root_checks_independent_witness :
    validateTop missingNameSpecDoc =
      [errReq "metadata.name is required", errReq "spec is required"] ∧
    validateTop bareMetadataDoc =
      [errReq "apiVersion is required", errReq "kind is required",
       errReq "metadata.name is required", errReq "spec is required"] := by
  constructor
  · exact c4_root_checks_independent.1 "" "" 0
      (mapNode 1 [strScalar "apiVersion" 1, strScalar "v1" 1,
        strScalar "kind" 2, strScalar "Pod" 2,
        strScalar "metadata" 3, mapNode 4 [strScalar "annotations" 4, strScalar "x" 4]])
      []
      [(strScalar "apiVersion" 1, strScalar "v1" 1),
       (strScalar "kind" 2, strScalar "Pod" 2),
       (strScalar "metadata" 3, mapNode 4 [strScalar "annotations" 4, strScalar "x" 4])]
      [(strScalar "annotations" 4, strScalar "x" 4)]
      (strScalar "v1" 1) (strScalar "Pod" 2)
      (mapNode 4 [strScalar "annotations" 4, strScalar "x" 4])
      rfl rfl rfl rfl rfl rfl rfl rfl rfl rfl rfl rfl rfl
  · exact c4_root_checks_independent.2 "" "" 0
      (mapNode 1 [strScalar "metadata" 1,
        mapNode 2 [strScalar "annotations" 2, strScalar "x" 2]])
      []
      [(strScalar "metadata" 1, mapNode 2 [strScalar "annotations" 2, strScalar "x" 2])]
      [(strScalar "annotations" 2, strScalar "x" 2)]
      (mapNode 2 [strScalar "annotations" 2, strScalar "x" 2])
      rfl rfl rfl rfl rfl rfl rfl rfl rfl

/-! Claim C10: unknown mapping keys are ignored at every schema level.
Supporting lemmas about appending one extra key/value pair to a
well-formed (even-length) mapping. -/

theorem collectErrs_append {α : Type} (f : α → List VErr) (l1 l2 : List α) :
    collectErrs f (l1 ++ l2) = collectErrs f l1 ++ collectErrs f l2 := by
  induction l1 with
  | nil => simp [collectErrs]
  | cons x xs ih => simp [collectErrs, ih]

theorem collectErrs_congr {α : Type} {f g : α → List VErr} {l : List α}
    (h : ∀ x ∈ l, f x = g x) : collectErrs f l = collectErrs g l := by
  induction l with
  | nil => rfl
  | cons x xs ih =>
    rw [collectErrs, collectErrs, h x (by simp),
      ih (fun y hy => h y (by simp [hy]))]

theorem mvFind_append_single (ps : List (YNode × YNode)) (q : YNode × YNode)
    (j : String) :
    mvFind (ps ++ [q]) j = if q.1.value = j then some q.2 else mvFind ps j := by
  induction ps with
  | nil => simp [mvFind]
  | cons p rest ih =>
    by_cases hq : q.1.value = j
    · simp [mvFind, ih, hq]
    · simp [mvFind, ih, hq]

theorem dedupKeys_append_single (l : List String) (k : String) :
    dedupKeys (l ++ [k]) = if k ∈ l then dedupKeys l else dedupKeys l ++ [k] := by
  induction l with
  | nil => simp [dedupKeys]
  | cons a l ih =>
    by_cases hk : k ∈ l
    · simp [dedupKeys, ih, hk]
    · by_cases ha : k = a
      · subst ha
        simp [dedupKeys, ih, hk, List.filter_append]
      · simp [dedupKeys, ih, hk, ha, List.filter_append, List.cons_append]

theorem pairsOf_append_pair : ∀ (cs : List YNode) (kn v : YNode),
    cs.length % 2 = 0 → pairsOf (cs ++ [kn, v]) = pairsOf cs ++ [(kn, v)]
  | [], kn, v, _ => rfl
  | [x], kn, v, h => by simp at h
  | a :: b :: cs, kn, v, h => by
    have h' : cs.length % 2 = 0 := by simp [List.length_cons] at h; omega
    simp [pairsOf, List.cons_append, pairsOf_append_pair cs kn v h']

theorem checkResourceKey_unknown (pfx : String) (ps : List (YNode × YNode))
    (k : String) (h1 : k ≠ "cpu") (h2 : k ≠ "memory") :
    checkResourceKey pfx ps k = [] := by
  unfold checkResourceKey
  cases mvFind ps k with
  | none => rfl
  | some v => simp [h1, h2]

theorem checkResourceKey_append (pfx : String) (ps : List (YNode × YNode))
    (kn v : YNode) (j : String) (hc : kn.value ≠ "cpu") (hm : kn.value ≠ "memory") :
    checkResourceKey pfx (ps ++ [(kn, v)]) j = checkResourceKey pfx ps j := by
  by_cases hj : kn.value = j
  · rw [← hj, checkResourceKey_unknown pfx _ _ hc hm,
      checkResourceKey_unknown pfx _ _ hc hm]
  · unfold checkResourceKey
    rw [mvFind_append_single]
    simp [hj]

theorem validateResourceSet_extra_key (pfx tg vv : String) (l : Nat) (cs : List YNode)
    (kn v : YNode) (he : cs.length % 2 = 0)
    (hn : kn.value ∉ (["cpu", "memory"] : List String)) :
    validateResourceSet pfx (YNode.node YKind.mapping tg vv l (cs ++ [kn, v])) =
      validateResourceSet pfx (YNode.node YKind.mapping tg vv l cs) := by
  simp only [List.mem_cons, List.not_mem_nil, not_or, or_false] at hn
  obtain ⟨hc, hm⟩ := hn
  have hps := pairsOf_append_pair cs kn v he
  simp only [validateResourceSet, getMapping, YNode.kind, YNode.content, if_pos, hps,
    validateResourceSetWith, distinctKeys, List.map_append, List.map,
    dedupKeys_append_single]
  by_cases hmem : kn.value ∈ List.map (fun p => p.1.value) (pairsOf cs)
  · rw [if_pos hmem]
    exact collectErrs_congr (fun j hj => checkResourceKey_append pfx _ kn v j hc hm)
  · rw [if_neg hmem, collectErrs_append]
    rw [show collectErrs (checkResourceKey pfx (pairsOf cs ++ [(kn, v)])) [kn.value] =
      checkResourceKey pfx (pairsOf cs ++ [(kn, v)]) kn.value ++ [] from rfl]
    rw [checkResourceKey_unknown pfx _ kn.value hc hm]
    simp only [List.append_nil]
    exact collectErrs_congr (fun j hj => checkResourceKey_append pfx _ kn v j hc hm)

theorem validateObjectMeta_extra_key (tg vv : String) (l : Nat) (cs : List YNode)
    (kn v : YNode) (he : cs.length % 2 = 0)
    (hn : kn.value ∉ (["name", "namespace", "labels"] : List String)) :
    validateObjectMeta (YNode.node YKind.mapping tg vv l (cs ++ [kn, v])) =
      validateObjectMeta (YNode.node YKind.mapping tg vv l cs) := by
  simp only [List.mem_cons, List.not_mem_nil, not_or, or_false] at hn
  obtain ⟨h1, h2, h3⟩ := hn
  have hps := pairsOf_append_pair cs kn v he
  simp [validateObjectMeta, getMapping, YNode.kind, YNode.content, hps,
    checkMetaName, checkMetaNamespace, checkMetaLabels, mvFind_append_single,
    h1, h2, h3]

theorem validatePodSpec_extra_key (tg vv : String) (l : Nat) (cs : List YNode)
    (kn v : YNode) (he : cs.length % 2 = 0)
    (hn : kn.value ∉ (["os", "containers"] : List String)) :
    validatePodSpec (YNode.node YKind.mapping tg vv l (cs ++ [kn, v])) =
      validatePodSpec (YNode.node YKind.mapping tg vv l cs) := by
  simp only [List.mem_cons, List.not_mem_nil, not_or, or_false] at hn
  obtain ⟨h1, h2⟩ := hn
  have hps := pairsOf_append_pair cs kn v he
  simp [validatePodSpec, getMapping, YNode.kind, YNode.content, hps,
    checkOs, checkContainers, mvFind_append_single, h1, h2]

theorem validateContainer_extra_key (tg vv : String) (l : Nat) (cs : List YNode)
    (kn v : YNode) (he : cs.length % 2 = 0)
    (hn : kn.value ∉ (["name", "image", "ports", "readinessProbe",
      "livenessProbe", "resources"] : List String)) :
    validateContainer (YNode.node YKind.mapping tg vv l (cs ++ [kn, v])) =
      validateContainer (YNode.node YKind.mapping tg vv l cs) := by
  simp only [List.mem_cons, List.not_mem_nil, not_or, or_false] at hn
  obtain ⟨h1, h2, h3, h4, h5, h6⟩ := hn
  have hps := pairsOf_append_pair cs kn v he
  simp [validateContainer, getMapping, YNode.kind, YNode.content, hps,
    checkContainerName, checkImage, checkPorts, checkReadiness, checkLiveness,
    checkResourcesField, mvFind_append_single, h1, h2, h3, h4, h5, h6]

theorem validateContainerPort_extra_key (tg vv : String) (l : Nat) (cs : List YNode)
    (kn v : YNode) (he : cs.length % 2 = 0)
    (hn : kn.value ∉ (["containerPort", "protocol"] : List String)) :
    validateContainerPort (YNode.node YKind.mapping tg vv l (cs ++ [kn, v])) =
      validateContainerPort (YNode.node YKind.mapping tg vv l cs) := by
  simp only [List.mem_cons, List.not_mem_nil, not_or, or_false] at hn
  obtain ⟨h1, h2⟩ := hn
  have hps := pairsOf_append_pair cs kn v he
  simp [validateContainerPort, getMapping, YNode.kind, YNode.content, hps,
    checkContainerPort, checkProtocol, mvFind_append_single, h1, h2]

theorem validateProbe_extra_key (pfx tg vv : String) (l : Nat) (cs : List YNode)
    (kn v : YNode) (he : cs.length % 2 = 0) (hn : kn.value ≠ "httpGet") :
    validateProbe pfx (YNode.node YKind.mapping tg vv l (cs ++ [kn, v])) =
      validateProbe pfx (YNode.node YKind.mapping tg vv l cs) := by
  have hps := pairsOf_append_pair cs kn v he
  simp [validateProbe, getMapping, YNode.kind, YNode.content, hps,
    mvFind_append_single, hn]

theorem validateHTTPGet_extra_key (pfx tg vv : String) (l : Nat) (cs : List YNode)
    (kn v : YNode) (he : cs.length % 2 = 0)
    (hn : kn.value ∉ (["path", "port"] : List String)) :
    validateHTTPGet pfx (YNode.node YKind.mapping tg vv l (cs ++ [kn, v])) =
      validateHTTPGet pfx (YNode.node YKind.mapping tg vv l cs) := by
  simp only [List.mem_cons, List.not_mem_nil, not_or, or_false] at hn
  obtain ⟨h1, h2⟩ := hn
  have hps := pairsOf_append_pair cs kn v he
  simp [validateHTTPGet, getMapping, YNode.kind, YNode.content, hps,
    checkHGPath, checkHGPort, mvFind_append_single, h1, h2]

theorem validateResources_extra_key (tg vv : String) (l : Nat) (cs : List YNode)
    (kn v : YNode) (he : cs.length % 2 = 0)
    (hn : kn.value ∉ (["requests", "limits"] : List String)) :
    validateResources (YNode.node YKind.mapping tg vv l (cs ++ [kn, v])) =
      validateResources (YNode.node YKind.mapping tg vv l cs) := by
  simp only [List.mem_cons, List.not_mem_nil, not_or, or_false] at hn
  obtain ⟨h1, h2⟩ := hn
  have hps := pairsOf_append_pair cs kn v he
  simp [validateResources, getMapping, YNode.kind, YNode.content, hps,
    mvFind_append_single, h1, h2]

theorem validateTop_extra_key (dt dv tg vv : String) (dl l : Nat)
    (rest cs : List YNode) (kn v : YNode) (he : cs.length % 2 = 0)
    (hn : kn.value ∉ (["apiVersion", "kind", "metadata", "spec"] : List String)) :
    validateTop (YNode.node YKind.document dt dv dl
        (YNode.node YKind.mapping tg vv l (cs ++ [kn, v]) :: rest)) =
      validateTop (YNode.node YKind.document dt dv dl
        (YNode.node YKind.mapping tg vv l cs :: rest)) := by
  simp only [List.mem_cons, List.not_mem_nil, not_or, or_false] at hn
  obtain ⟨h1, h2, h3, h4⟩ := hn
  have hps := pairsOf_append_pair cs kn v he
  simp [validateTop, getMapping, YNode.kind, YNode.content, hps,
    checkApiVersion, checkKind, checkMetadataField, checkSpecField,
    mvFind_append_single, h1, h2, h3, h4]

/-- C10: at every schema level (root document, metadata, spec, container,
port, probe, httpGet, resources, resource set), appending a key/value
pair whose key is not named by that level's schema to a well-formed
mapping leaves the diagnostic list unchanged — the unknown field
produces no diagnostic and its value (arbitrary here) is never
traversed. -/
theorem c10_unknown_keys_ignored :
    (∀ (dt dv tg vv : String) (dl l : Nat) (rest cs : List YNode) (kn v : YNode),
      cs.length % 2 = 0 →
      kn.value ∉ (["apiVersion", "kind", "metadata", "spec"] : List String) →
      validateTop (YNode.node YKind.document dt dv dl
          (YNode.node YKind.mapping tg vv l (cs ++ [kn, v]) :: rest)) =
        validateTop (YNode.node YKind.document dt dv dl
          (YNode.node YKind.mapping tg vv l cs :: rest))) ∧
    (∀ (tg vv : String) (l : Nat) (cs : List YNode) (kn v : YNode),
      cs.length % 2 = 0 →
      kn.value ∉ (["name", "namespace", "labels"] : List String) →
      validateObjectMeta (YNode.node YKind.mapping tg vv l (cs ++ [kn, v])) =
        validateObjectMeta (YNode.node YKind.mapping tg vv l cs)) ∧
    (∀ (tg vv : String) (l : Nat) (cs : List YNode) (kn v : YNode),
      cs.length % 2 = 0 →
      kn.value ∉ (["os", "containers"] : List String) →
      validatePodSpec (YNode.node YKind.mapping tg vv l (cs ++ [kn, v])) =
        validatePodSpec (YNode.node YKind.mapping tg vv l cs)) ∧
    (∀ (tg vv : String) (l : Nat) (cs : List YNode) (kn v : YNode),
      cs.length % 2 = 0 →
      kn.value ∉ (["name", "image", "ports", "readinessProbe", "livenessProbe",
        "resources"] : List String) →
      validateContainer (YNode.node YKind.mapping tg vv l (cs ++ [kn, v])) =
        validateContainer (YNode.node YKind.mapping tg vv l cs)) ∧
    (∀ (tg vv : String) (l : Nat) (cs : List YNode) (kn v : YNode),
      cs.length % 2 = 0 →
      kn.value ∉ (["containerPort", "protocol"] : List String) →
      validateContainerPort (YNode.node YKind.mapping tg vv l (cs ++ [kn, v])) =
        validateContainerPort (YNode.node YKind.mapping tg vv l cs)) ∧
    (∀ (pfx tg vv : String) (l : Nat) (cs : List YNode) (kn v : YNode),
      cs.length % 2 = 0 → kn.value ≠ "httpGet" →
      validateProbe pfx (YNode.node YKind.mapping tg vv l (cs ++ [kn, v])) =
        validateProbe pfx (YNode.node YKind.mapping tg vv l cs)) ∧
    (∀ (pfx tg vv : String) (l : Nat) (cs : List YNode) (kn v : YNode),
      cs.length % 2 = 0 →
      kn.value ∉ (["path", "port"] : List String) →
      validateHTTPGet pfx (YNode.node YKind.mapping tg vv l (cs ++ [kn, v])) =
        validateHTTPGet pfx (YNode.node YKind.mapping tg vv l cs)) ∧
    (∀ (tg vv : String) (l : Nat) (cs : List YNode) (kn v : YNode),
      cs.length % 2 = 0 →
      kn.value ∉ (["requests", "limits"] : List String) →
      validateResources (YNode.node YKind.mapping tg vv l (cs ++ [kn, v])) =
        validateResources (YNode.node YKind.mapping tg vv l cs)) ∧
    (∀ (pfx tg vv : String) (l : Nat) (cs : List YNode) (kn v : YNode),
      cs.length % 2 = 0 →
      kn.value ∉ (["cpu", "memory"] : List String) →
      validateResourceSet pfx (YNode.node YKind.mapping tg vv l (cs ++ [kn, v])) =
        validateResourceSet pfx (YNode.node YKind.mapping tg vv l cs)) := by
  refine ⟨?_, ?_, ?_, ?_, ?_, ?_, ?_, ?_, ?_⟩
  · intro dt dv tg vv dl l rest cs kn v he hn
    exact validateTop_extra_key dt dv tg vv dl l rest cs kn v he hn
  · intro tg vv l cs kn v he hn
    exact validateObjectMeta_extra_key tg vv l cs kn v he hn
  · intro tg vv l cs kn v he hn
    exact validatePodSpec_extra_key tg vv l cs kn v he hn
  · intro tg vv l cs kn v he hn
    exact validateContainer_extra_key tg vv l cs kn v he hn
  · intro tg vv l cs kn v he hn
    exact validateContainerPort_extra_key tg vv l cs kn v he hn
  · intro pfx tg vv l cs kn v he hn
    exact validateProbe_extra_key pfx tg vv l cs kn v he hn
  · intro pfx tg vv l cs kn v he hn
    exact validateHTTPGet_extra_key pfx tg vv l cs kn v he hn
  · intro tg vv l cs kn v he hn
    exact validateResources_extra_key tg vv l cs kn v he hn
  · intro pfx tg vv l cs kn v he hn
    exact validateResourceSet_extra_key pfx tg vv l cs kn v he hn

/-- Witness for C10: at each level, a mapping holding only the unknown
key `extra` (with a sequence value, which would be rejected were it
traversed by any of the scalar checks) validates exactly like the empty
mapping. -/
theorem c10_unknown_keys_ignored_witness :
    (validateTop (YNode.node YKind.document "" "" 0
        [YNode.node YKind.mapping "" "" 1 [strScalar "extra" 1, seqNode 1 []]]) =
      validateTop (YNode.node YKind.document "" "" 0
        [YNode.node YKind.mapping "" "" 1 []])) ∧
    (validateObjectMeta (mapNode 1 [strScalar "extra" 1, seqNode 1 []]) =
      validateObjectMeta (mapNode 1 [])) ∧
    (validatePodSpec (mapNode 1 [strScalar "extra" 1, seqNode 1 []]) =
      validatePodSpec (mapNode 1 [])) ∧
    (validateContainer (mapNode 1 [strScalar "extra" 1, seqNode 1 []]) =
      validateContainer (mapNode 1 [])) ∧
    (validateContainerPort (mapNode 1 [strScalar "extra" 1, seqNode 1 []]) =
      validateContainerPort (mapNode 1 [])) ∧
    (validateProbe "containers.readinessProbe"
        (mapNode 1 [strScalar "extra" 1, seqNode 1 []]) =
      validateProbe "containers.readinessProbe" (mapNode 1 [])) ∧
    (validateHTTPGet "containers.readinessProbe.httpGet"
        (mapNode 1 [strScalar "extra" 1, seqNode 1 []]) =
      validateHTTPGet "containers.readinessProbe.httpGet" (mapNode 1 [])) ∧
    (validateResources (mapNode 1 [strScalar "extra" 1, seqNode 1 []]) =
      validateResources (mapNode 1 [])) ∧
    (validateResourceSet "containers.resources.requests"
        (mapNode 1 [strScalar "extra" 1, seqNode 1 []]) =
      validateResourceSet "containers.resources.requests" (mapNode 1 [])) := by
  refine ⟨?_, ?_, ?_, ?_, ?_, ?_, ?_, ?_, ?_⟩
  · exact c10_unknown_keys_ignored.1 "" "" "" "" 0 1 [] []
      (strScalar "extra" 1) (seqNode 1 []) rfl (by decide)
  · exact c10_unknown_keys_ignored.2.1 "" "" 1 []
      (strScalar "extra" 1) (seqNode 1 []) rfl (by decide)
  · exact c10_unknown_keys_ignored.2.2.1 "" "" 1 []
      (strScalar "extra" 1) (seqNode 1 []) rfl (by decide)
  · exact c10_unknown_keys_ignored.2.2.2.1 "" "" 1 []
      (strScalar "extra" 1) (seqNode 1 []) rfl (by decide)
  · exact c10_unknown_keys_ignored.2.2.2.2.1 "" "" 1 []
      (strScalar "extra" 1) (seqNode 1 []) rfl (by decide)
  · exact c10_unknown_keys_ignored.2.2.2.2.2.1 "containers.readinessProbe" "" "" 1 []
      (strScalar "extra" 1) (seqNode 1 []) rfl (by decide)
  · exact c10_unknown_keys_ignored.2.2.2.2.2.2.1 "containers.readinessProbe.httpGet"
      "" "" 1 [] (strScalar "extra" 1) (seqNode 1 []) rfl (by decide)
  · exact c10_unknown_keys_ignored.2.2.2.2.2.2.2.1 "" "" 1 []
      (strScalar "extra" 1) (seqNode 1 []) rfl (by decide)
  · exact c10_unknown_keys_ignored.2.2.2.2.2.2.2.2 "containers.resources.requests"
      "" "" 1 [] (strScalar "extra" 1) (seqNode 1 []) rfl (by decide)

/-! Claim C3: no false positives.  The `specValid…` predicates below are
modelled from the words of spec section 4, one per schema node; the
refinement theorem shows any document satisfying them produces zero
diagnostics and a success exit code. -/

/-- Spec 4.5 `os`: scalar form lower-cased `linux`/`windows`, or object
form with a required scalar `name` lower-cased `linux`/`windows`. -/
def specValidOs (n : YNode) : Bool :=
  match n.kind with
  | YKind.scalar => strLower n.value == "linux" || strLower n.value == "windows"
  | YKind.mapping =>
    (match mvFind (pairsOf n.content) "name" with
     | some nn => decide (nn.kind = YKind.scalar) &&
         (strLower nn.value == "linux" || strLower nn.value == "windows")
     | none => false)
  | _ => false

/-- Spec 4.7: a port entry is a mapping with a required integer
`containerPort` strictly between 0 and 65536 and an optional `protocol`
that must be exactly TCP or UDP. -/
def specValidPort (n : YNode) : Bool :=
  decide (n.kind = YKind.mapping) &&
  (match mvFind (pairsOf n.content) "containerPort" with
   | some cp => decide (cp.kind = YKind.scalar) &&
       (match goAtoi cp.value with
        | some v => portInRange v
        | none => false)
   | none => false) &&
  (match mvFind (pairsOf n.content) "protocol" with
   | none => true
   | some p => decide (p.kind = YKind.scalar) && (p.value == "TCP" || p.value == "UDP"))

/-- Spec 4.8: an http-get action is a mapping with a required scalar
`path` starting with '/' and a required integer `port` in range. -/
def specValidHTTPGet (n : YNode) : Bool :=
  decide (n.kind = YKind.mapping) &&
  (match mvFind (pairsOf n.content) "path" with
   | some pn => decide (pn.kind = YKind.scalar) && hasSlashPre pn.value
   | none => false) &&
  (match mvFind (pairsOf n.content) "port" with
   | some pt => decide (pt.kind = YKind.scalar) &&
       (match goAtoi pt.value with
        | some v => portInRange v
        | none => false)
   | none => false)

/-- Spec 4.8: a probe is a mapping with a required valid `httpGet`. -/
def specValidProbe (n : YNode) : Bool :=
  decide (n.kind = YKind.mapping) &&
  (match mvFind (pairsOf n.content) "httpGet" with
   | some hg => specValidHTTPGet hg
   | none => false)

/-- Spec 4.9: a resource set is a mapping where every `cpu` entry is an
integer-parsing scalar, every `memory` entry a scalar matching the
memory-quantity pattern, and other keys are unconstrained. -/
def specValidResourceSet (n : YNode) : Bool :=
  decide (n.kind = YKind.mapping) &&
  (pairsOf n.content).all (fun p =>
    if p.1.value == "cpu" then
      decide (p.2.kind = YKind.scalar) && (goAtoi p.2.value).isSome
    else if p.1.value == "memory" then
      decide (p.2.kind = YKind.scalar) && reMem p.2.value
    else true)

/-- Spec 4.9: resources is a mapping with optional valid `requests` and
`limits` sets. -/
def specValidResources (n : YNode) : Bool :=
  decide (n.kind = YKind.mapping) &&
  (match mvFind (pairsOf n.content) "requests" with
   | some r => specValidResourceSet r
   | none => true) &&
  (match mvFind (pairsOf n.content) "limits" with
   | some r => specValidResourceSet r
   | none => true)

/-- Spec 4.6: a container is a mapping with required snake_case `name`,
required well-formed `image`, optional `ports` sequence of valid ports,
optional valid probes, and required valid `resources`. -/
def specValidContainer (n : YNode) : Bool :=
  decide (n.kind = YKind.mapping) &&
  (match mvFind (pairsOf n.content) "name" with
   | some nn => decide (nn.kind = YKind.scalar) && reSnakeCase nn.value
   | none => false) &&
  (match mvFind (pairsOf n.content) "image" with
   | some im => decide (im.kind = YKind.scalar) && reImage im.value
   | none => false) &&
  (match mvFind (pairsOf n.content) "ports" with
   | none => true
   | some pn => decide (pn.kind = YKind.sequence) && pn.content.all specValidPort) &&
  (match mvFind (pairsOf n.content) "readinessProbe" with
   | none => true
   | some p => specValidProbe p) &&
  (match mvFind (pairsOf n.content) "livenessProbe" with
   | none => true
   | some p => specValidProbe p) &&
  (match mvFind (pairsOf n.content) "resources" with
   | some r => specValidResources r
   | none => false)

/-- Spec 4.4: metadata is a mapping with required scalar `name`,
optional scalar `namespace`, optional `labels` mapping of scalar
values. -/
def specValidMeta (n : YNode) : Bool :=
  decide (n.kind = YKind.mapping) &&
  (match mvFind (pairsOf n.content) "name" with
   | some nn => decide (nn.kind = YKind.scalar)
   | none => false) &&
  (match mvFind (pairsOf n.content) "namespace" with
   | none => true
   | some ns => decide (ns.kind = YKind.scalar)) &&
  (match mvFind (pairsOf n.content) "labels" with
   | none => true
   | some lb => decide (lb.kind = YKind.mapping) &&
       (pairsOf lb.content).all (fun p => decide (p.2.kind = YKind.scalar)))

/-- Spec 4.5: the pod spec is a mapping with optional valid `os` and a
required non-empty `containers` sequence of valid containers. -/
def specValidSpecNode (n : YNode) : Bool :=
  decide (n.kind = YKind.mapping) &&
  (match mvFind (pairsOf n.content) "os" with
   | none => true
   | some o => specValidOs o) &&
  (match mvFind (pairsOf n.content) "containers" with
   | some cn => decide (cn.kind = YKind.sequence) && !cn.content.isEmpty &&
       cn.content.all specValidContainer
   | none => false)

/-- Spec 4.3: a valid document is a document node whose first content
node is a mapping with apiVersion "v1", kind "Pod", valid metadata and
valid spec. -/
def specValidDoc (root : YNode) : Bool :=
  match root.kind, root.content with
  | YKind.document, obj :: _ =>
    decide (obj.kind = YKind.mapping) &&
    (match mvFind (pairsOf obj.content) "apiVersion" with
     | some a => decide (a.kind = YKind.scalar) && a.value == "v1"
     | none => false) &&
    (match mvFind (pairsOf obj.content) "kind" with
     | some k => decide (k.kind = YKind.scalar) && k.value == "Pod"
     | none => false) &&
    (match mvFind (pairsOf obj.content) "metadata" with
     | some m => specValidMeta m
     | none => false) &&
    (match mvFind (pairsOf obj.content) "spec" with
     | some s => specValidSpecNode s
     | none => false)
  | _, _ => false

/-- A successful lookup returns the value of some pair of the list whose
key node carries the looked-up key. -/
theorem mvFind_mem (ps : List (YNode × YNode)) (k : String) (v : YNode)
    (h : mvFind ps k = some v) : ∃ kn, (kn, v) ∈ ps ∧ kn.value = k := by
  induction ps with
  | nil => simp [mvFind] at h
  | cons p rest ih =>
    rw [mvFind] at h
    cases hr : mvFind rest k with
    | some w =>
      rw [hr] at h
      simp only [Option.some.injEq] at h
      subst h
      obtain ⟨kn, hm, hk⟩ := ih hr
      exact ⟨kn, List.mem_cons_of_mem _ hm, hk⟩
    | none =>
      rw [hr] at h
      by_cases hp : p.1.value = k
      · simp only [hp, if_pos] at h
        refine ⟨p.1, ?_, hp⟩
        simp only [Option.some.injEq] at h
        rw [← h]
        simp
      · simp [hp] at h

theorem collectErrs_nil {α : Type} {f : α → List VErr} {l : List α}
    (h : ∀ x ∈ l, f x = []) : collectErrs f l = [] := by
  induction l with
  | nil => rfl
  | cons x xs ih =>
    simp [collectErrs, h x (by simp), ih (fun y hy => h y (by simp [hy]))]

/-- A spec-valid resource set validates with no diagnostics. -/
theorem specValidResourceSet_clean (pfx : String) (n : YNode)
    (h : specValidResourceSet n = true) : validateResourceSet pfx n = [] := by
  simp only [specValidResourceSet, Bool.and_eq_true, decide_eq_true_eq] at h
  obtain ⟨hk, hall⟩ := h
  have hgm : getMapping n = some (pairsOf n.content) := by simp [getMapping, hk]
  simp only [validateResourceSet, hgm, validateResourceSetWith]
  apply collectErrs_nil
  intro k hkmem
  unfold checkResourceKey
  cases hf : mvFind (pairsOf n.content) k with
  | none => rfl
  | some v =>
    obtain ⟨kn, hm, hkv⟩ := mvFind_mem _ _ _ hf
    have hp := List.all_eq_true.mp hall _ hm
    simp only [hkv] at hp
    by_cases hc : k = "cpu"
    · simp only [hc, if_pos, beq_self_eq_true, if_true, Bool.and_eq_true,
        decide_eq_true_eq] at hp ⊢
      obtain ⟨hs, hatoi⟩ := hp
      simp only [getScalarString, hs, if_pos]
      cases hg : goAtoi v.value with
      | none => rw [hg] at hatoi; simp at hatoi
      | some w => simp
    · by_cases hmem2 : k = "memory"
      · simp only [hmem2] at hp ⊢
        simp only [beq_iff_eq, if_neg (by decide : ¬ ("memory" : String) = "cpu"),
          if_pos, Bool.and_eq_true, decide_eq_true_eq, reduceIte] at hp
        obtain ⟨hs, hmm⟩ := hp
        simp [getScalarString, hs, hmm]
      · simp [hc, hmem2]

/-- Spec-valid resources validate with no diagnostics. -/
theorem specValidResources_clean (n : YNode) (h : specValidResources n = true) :
    validateResources n = [] := by
  simp only [specValidResources, Bool.and_eq_true, decide_eq_true_eq] at h
  obtain ⟨⟨hk, hreq⟩, hlim⟩ := h
  have hgm : getMapping n = some (pairsOf n.content) := by simp [getMapping, hk]
  simp only [validateResources, hgm]
  cases hr : mvFind (pairsOf n.content) "requests" with
  | none =>
    cases hl : mvFind (pairsOf n.content) "limits" with
    | none => rfl
    | some r =>
      rw [hl] at hlim
      replace hlim : specValidResourceSet r = true := hlim
      simp [specValidResourceSet_clean _ _ hlim]
  | some r =>
    rw [hr] at hreq
    replace hreq : specValidResourceSet r = true := hreq
    cases hl : mvFind (pairsOf n.content) "limits" with
    | none => simp [specValidResourceSet_clean _ _ hreq]
    | some r2 =>
      rw [hl] at hlim
      replace hlim : specValidResourceSet r2 = true := hlim
      simp [specValidResourceSet_clean _ _ hreq, specValidResourceSet_clean _ _ hlim]

/-- A spec-valid http-get action validates with no diagnostics. -/
theorem specValidHTTPGet_clean (pfx : String) (n : YNode)
    (h : specValidHTTPGet n = true) : validateHTTPGet pfx n = [] := by
  simp only [specValidHTTPGet, Bool.and_eq_true, decide_eq_true_eq] at h
  obtain ⟨⟨hk, hpath⟩, hport⟩ := h
  have hgm : getMapping n = some (pairsOf n.content) := by simp [getMapping, hk]
  simp only [validateHTTPGet, hgm]
  have h1 : checkHGPath pfx (pairsOf n.content) = [] := by
    cases hp : mvFind (pairsOf n.content) "path" with
    | none => rw [hp] at hpath; simp at hpath
    | some pn =>
      rw [hp] at hpath
      replace hpath : (decide (pn.kind = YKind.scalar) && hasSlashPre pn.value) = true := hpath
      simp only [Bool.and_eq_true, decide_eq_true_eq] at hpath
      obtain ⟨hs, hsl⟩ := hpath
      simp [checkHGPath, hp, getScalarString, hs, hsl]
  have h2 : checkHGPort pfx (pairsOf n.content) = [] := by
    cases hp : mvFind (pairsOf n.content) "port" with
    | none => rw [hp] at hport; simp at hport
    | some pt =>
      rw [hp] at hport
      replace hport : (decide (pt.kind = YKind.scalar) &&
          match goAtoi pt.value with
          | some v => portInRange v
          | none => false) = true := hport
      simp only [Bool.and_eq_true, decide_eq_true_eq] at hport
      obtain ⟨hs, hrange⟩ := hport
      cases hg : goAtoi pt.value with
      | none => rw [hg] at hrange; simp at hrange
      | some w =>
        rw [hg] at hrange
        replace hrange : portInRange w = true := hrange
        simp [checkHGPort, hp, getScalarString, hs, hg, hrange]
  rw [h1, h2]
  rfl

/-- A spec-valid probe validates with no diagnostics. -/
theorem specValidProbe_clean (pfx : String) (n : YNode)
    (h : specValidProbe n = true) : validateProbe pfx n = [] := by
  simp only [specValidProbe, Bool.and_eq_true, decide_eq_true_eq] at h
  obtain ⟨hk, hhg⟩ := h
  have hgm : getMapping n = some (pairsOf n.content) := by simp [getMapping, hk]
  simp only [validateProbe, hgm]
  cases hf : mvFind (pairsOf n.content) "httpGet" with
  | none => rw [hf] at hhg; simp at hhg
  | some hg =>
    rw [hf] at hhg
    replace hhg : specValidHTTPGet hg = true := hhg
    exact specValidHTTPGet_clean (pfx ++ ".httpGet") hg hhg

/-- A spec-valid port entry validates with no diagnostics. -/
theorem specValidPort_clean (n : YNode) (h : specValidPort n = true) :
    validateContainerPort n = [] := by
  simp only [specValidPort, Bool.and_eq_true, decide_eq_true_eq] at h
  obtain ⟨⟨hk, hcp⟩, hproto⟩ := h
  have hgm : getMapping n = some (pairsOf n.content) := by simp [getMapping, hk]
  simp only [validateContainerPort, hgm]
  have h1 : checkContainerPort (pairsOf n.content) = [] := by
    cases hf : mvFind (pairsOf n.content) "containerPort" with
    | none => rw [hf] at hcp; simp at hcp
    | some cp =>
      rw [hf] at hcp
      replace hcp : (decide (cp.kind = YKind.scalar) &&
          match goAtoi cp.value with
          | some v => portInRange v
          | none => false) = true := hcp
      simp only [Bool.and_eq_true, decide_eq_true_eq] at hcp
      obtain ⟨hs, hrange⟩ := hcp
      cases hg : goAtoi cp.value with
      | none => rw [hg] at hrange; simp at hrange
      | some w =>
        rw [hg] at hrange
        replace hrange : portInRange w = true := hrange
        simp [checkContainerPort, hf, getScalarString, hs, hg, hrange]
  have h2 : checkProtocol (pairsOf n.content) = [] := by
    cases hf : mvFind (pairsOf n.content) "protocol" with
    | none => simp [checkProtocol, hf]
    | some p =>
      rw [hf] at hproto
      replace hproto : (decide (p.kind = YKind.scalar) &&
          (p.value == "TCP" || p.value == "UDP")) = true := hproto
      simp only [Bool.and_eq_true, Bool.or_eq_true, decide_eq_true_eq,
        beq_iff_eq] at hproto
      obtain ⟨hs, hval⟩ := hproto
      simp [checkProtocol, hf, getScalarString, hs, hval]
  rw [h1, h2]
  rfl

/-- Spec-valid metadata validates with no diagnostics. -/
theorem specValidMeta_clean (n : YNode) (h : specValidMeta n = true) :
    validateObjectMeta n = [] := by
  simp only [specValidMeta, Bool.and_eq_true, decide_eq_true_eq] at h
  obtain ⟨⟨⟨hk, hname⟩, hns⟩, hlb⟩ := h
  have hgm : getMapping n = some (pairsOf n.content) := by simp [getMapping, hk]
  simp only [validateObjectMeta, hgm]
  have h1 : checkMetaName (pairsOf n.content) = [] := by
    cases hf : mvFind (pairsOf n.content) "name" with
    | none => rw [hf] at hname; simp at hname
    | some nn =>
      rw [hf] at hname
      replace hname : nn.kind = YKind.scalar := by simpa using hname
      simp [checkMetaName, hf, getScalarString, hname]
  have h2 : checkMetaNamespace (pairsOf n.content) = [] := by
    cases hf : mvFind (pairsOf n.content) "namespace" with
    | none => simp [checkMetaNamespace, hf]
    | some ns =>
      rw [hf] at hns
      replace hns : ns.kind = YKind.scalar := by simpa using hns
      simp [checkMetaNamespace, hf, getScalarString, hns]
  have h3 : checkMetaLabels (pairsOf n.content) = [] := by
    cases hf : mvFind (pairsOf n.content) "labels" with
    | none => simp [checkMetaLabels, hf]
    | some lb =>
      rw [hf] at hlb
      replace hlb : (decide (lb.kind = YKind.mapping) &&
          (pairsOf lb.content).all (fun p => decide (p.2.kind = YKind.scalar))) = true := hlb
      simp only [Bool.and_eq_true, decide_eq_true_eq] at hlb
      obtain ⟨hlk, hall⟩ := hlb
      have hlgm : getMapping lb = some (pairsOf lb.content) := by
        simp [getMapping, hlk]
      simp only [checkMetaLabels, hf, hlgm, checkLabelsWith]
      apply collectErrs_nil
      intro k hkmem
      cases hv : mvFind (pairsOf lb.content) k with
      | none => rfl
      | some v =>
        obtain ⟨kn, hm, hkv⟩ := mvFind_mem _ _ _ hv
        have hp := List.all_eq_true.mp hall _ hm
        simp only [decide_eq_true_eq] at hp
        simp [getScalarString, hp]
  rw [h1, h2, h3]
  rfl

/-- A spec-valid `os` value produces no diagnostics from the os block. -/
theorem specValidOs_clean (ps : List (YNode × YNode)) (o : YNode)
    (hf : mvFind ps "os" = some o) (h : specValidOs o = true) :
    checkOs ps = [] := by
  unfold specValidOs at h
  unfold checkOs
  rw [hf]
  cases ho : o.kind with
  | scalar =>
    rw [ho] at h
    simp only [Bool.or_eq_true, beq_iff_eq] at h
    simp [ho, h]
  | mapping =>
    rw [ho] at h
    cases hn : mvFind (pairsOf o.content) "name" with
    | none => rw [hn] at h; simp at h
    | some nn =>
      rw [hn] at h
      replace h : (decide (nn.kind = YKind.scalar) &&
          (strLower nn.value == "linux" || strLower nn.value == "windows")) = true := h
      simp only [Bool.and_eq_true, Bool.or_eq_true, decide_eq_true_eq,
        beq_iff_eq] at h
      obtain ⟨hs, hval⟩ := h
      simp [ho, hn, getScalarString, hs, hval]
  | document => rw [ho] at h; simp at h
  | sequence => rw [ho] at h; simp at h

/-- A spec-valid container validates with no diagnostics. -/
theorem specValidContainer_clean (n : YNode) (h : specValidContainer n = true) :
    validateContainer n = [] := by
  simp only [specValidContainer, Bool.and_eq_true, decide_eq_true_eq] at h
  obtain ⟨⟨⟨⟨⟨⟨hk, hname⟩, him⟩, hports⟩, hrp⟩, hlp⟩, hres⟩ := h
  have hgm : getMapping n = some (pairsOf n.content) := by simp [getMapping, hk]
  simp only [validateContainer, hgm]
  have h1 : checkContainerName (pairsOf n.content) = [] := by
    cases hf : mvFind (pairsOf n.content) "name" with
    | none => rw [hf] at hname; simp at hname
    | some nn =>
      rw [hf] at hname
      replace hname : (decide (nn.kind = YKind.scalar) && reSnakeCase nn.value) = true :=
        hname
      simp only [Bool.and_eq_true, decide_eq_true_eq] at hname
      obtain ⟨hs, hsn⟩ := hname
      simp [checkContainerName, hf, getScalarString, hs, hsn]
  have h2 : checkImage (pairsOf n.content) = [] := by
    cases hf : mvFind (pairsOf n.content) "image" with
    | none => rw [hf] at him; simp at him
    | some im =>
      rw [hf] at him
      replace him : (decide (im.kind = YKind.scalar) && reImage im.value) = true := him
      simp only [Bool.and_eq_true, decide_eq_true_eq] at him
      obtain ⟨hs, hsn⟩ := him
      simp [checkImage, hf, getScalarString, hs, hsn]
  have h3 : checkPorts (pairsOf n.content) = [] := by
    cases hf : mvFind (pairsOf n.content) "ports" with
    | none => simp [checkPorts, hf]
    | some pn =>
      rw [hf] at hports
      replace hports : (decide (pn.kind = YKind.sequence) &&
          pn.content.all specValidPort) = true := hports
      simp only [Bool.and_eq_true, decide_eq_true_eq] at hports
      obtain ⟨hsq, hall⟩ := hports
      have hgs : getSequence pn = some pn.content := by simp [getSequence, hsq]
      simp only [checkPorts, hf, hgs]
      exact collectErrs_nil
        (fun x hx => specValidPort_clean x (List.all_eq_true.mp hall x hx))
  have h4 : checkReadiness (pairsOf n.content) = [] := by
    cases hf : mvFind (pairsOf n.content) "readinessProbe" with
    | none => simp [checkReadiness, hf]
    | some p =>
      rw [hf] at hrp
      replace hrp : specValidProbe p = true := hrp
      simp [checkReadiness, hf, specValidProbe_clean _ _ hrp]
  have h5 : checkLiveness (pairsOf n.content) = [] := by
    cases hf : mvFind (pairsOf n.content) "livenessProbe" with
    | none => simp [checkLiveness, hf]
    | some p =>
      rw [hf] at hlp
      replace hlp : specValidProbe p = true := hlp
      simp [checkLiveness, hf, specValidProbe_clean _ _ hlp]
  have h6 : checkResourcesField (pairsOf n.content) = [] := by
    cases hf : mvFind (pairsOf n.content) "resources" with
    | none => rw [hf] at hres; simp at hres
    | some r =>
      rw [hf] at hres
      replace hres : specValidResources r = true := hres
      simp [checkResourcesField, hf, specValidResources_clean _ hres]
  rw [h1, h2, h3, h4, h5, h6]
  rfl

/-- A spec-valid pod spec validates with no diagnostics. -/
theorem specValidSpecNode_clean (n : YNode) (h : specValidSpecNode n = true) :
    validatePodSpec n = [] := by
  simp only [specValidSpecNode, Bool.and_eq_true, decide_eq_true_eq] at h
  obtain ⟨⟨hk, hos⟩, hcont⟩ := h
  have hgm : getMapping n = some (pairsOf n.content) := by simp [getMapping, hk]
  simp only [validatePodSpec, hgm]
  have h1 : checkOs (pairsOf n.content) = [] := by
    cases hf : mvFind (pairsOf n.content) "os" with
    | none => simp [checkOs, hf]
    | some o =>
      rw [hf] at hos
      replace hos : specValidOs o = true := hos
      exact specValidOs_clean _ o hf hos
  have h2 : checkContainers (pairsOf n.content) = [] := by
    cases hf : mvFind (pairsOf n.content) "containers" with
    | none => rw [hf] at hcont; simp at hcont
    | some cn =>
      rw [hf] at hcont
      replace hcont : (decide (cn.kind = YKind.sequence) && (!cn.content.isEmpty) &&
          cn.content.all specValidContainer) = true := hcont
      simp only [Bool.and_eq_true, decide_eq_true_eq, Bool.not_eq_true'] at hcont
      obtain ⟨⟨hsq, hne⟩, hall⟩ := hcont
      have hgs : getSequence cn = some cn.content := by simp [getSequence, hsq]
      simp only [checkContainers, hf, hgs, hne, Bool.false_eq_true, if_false,
        List.nil_append]
      exact collectErrs_nil
        (fun x hx => specValidContainer_clean x (List.all_eq_true.mp hall x hx))
  rw [h1, h2]
  rfl

/-- C3: a document satisfying every rule of spec section 4 yields zero
diagnostics, and the run exits with the success code 0. -/
theorem c3_schema_valid_zero_diags (root : YNode) (h : specValidDoc root = true) :
    validateTop root = [] ∧ exitCode root = 0 := by
  have hv : validateTop root = [] := by
    cases root with
    | node k tg v l cs =>
      cases k with
      | mapping => simp [specValidDoc, YNode.kind, YNode.content] at h
      | sequence => simp [specValidDoc, YNode.kind, YNode.content] at h
      | scalar => simp [specValidDoc, YNode.kind, YNode.content] at h
      | document =>
        cases cs with
        | nil => simp [specValidDoc, YNode.kind, YNode.content] at h
        | cons obj rest =>
          cases obj with
          | node ok otg ov ol ocs =>
          simp only [specValidDoc, YNode.kind, YNode.content, Bool.and_eq_true,
            decide_eq_true_eq] at h
          obtain ⟨⟨⟨⟨hmk, hapi⟩, hkind⟩, hmeta⟩, hspec⟩ := h
          have hgm : getMapping (YNode.node ok otg ov ol ocs) = some (pairsOf ocs) := by
            simp [getMapping, YNode.kind, YNode.content, hmk]
          simp only [validateTop, YNode.kind, YNode.content, hgm]
          have h1 : checkApiVersion (pairsOf ocs) = [] := by
            cases hf : mvFind (pairsOf ocs) "apiVersion" with
            | none => rw [hf] at hapi; simp at hapi
            | some a =>
              rw [hf] at hapi
              replace hapi : (decide (a.kind = YKind.scalar) && (a.value == "v1")) =
                true := hapi
              simp only [Bool.and_eq_true, decide_eq_true_eq, beq_iff_eq] at hapi
              obtain ⟨hs, hval⟩ := hapi
              simp [checkApiVersion, hf, getScalarString, hs, hval]
          have h2 : checkKind (pairsOf ocs) = [] := by
            cases hf : mvFind (pairsOf ocs) "kind" with
            | none => rw [hf] at hkind; simp at hkind
            | some a =>
              rw [hf] at hkind
              replace hkind : (decide (a.kind = YKind.scalar) && (a.value == "Pod")) =
                true := hkind
              simp only [Bool.and_eq_true, decide_eq_true_eq, beq_iff_eq] at hkind
              obtain ⟨hs, hval⟩ := hkind
              simp [checkKind, hf, getScalarString, hs, hval]
          have h3 : checkMetadataField (pairsOf ocs) = [] := by
            cases hf : mvFind (pairsOf ocs) "metadata" with
            | none => rw [hf] at hmeta; simp at hmeta
            | some m =>
              rw [hf] at hmeta
              replace hmeta : specValidMeta m = true := hmeta
              simp [checkMetadataField, hf, specValidMeta_clean _ hmeta]
          have h4 : checkSpecField (pairsOf ocs) = [] := by
            cases hf : mvFind (pairsOf ocs) "spec" with
            | none => rw [hf] at hspec; simp at hspec
            | some s =>
              rw [hf] at hspec
              replace hspec : specValidSpecNode s = true := hspec
              simp [checkSpecField, hf, specValidSpecNode_clean _ hspec]
          simp [h1, h2, h3, h4]
  exact ⟨hv, by simp [exitCode, hv]⟩

/-- Minimal fully valid Pod manifest: apiVersion v1, kind Pod,
metadata.name, one container with snake_case name, registry image,
integer cpu request and a memory limit. -/
def goodPodDoc : YNode := docNode [mapNode 1
  [strScalar "apiVersion" 1, strScalar "v1" 1,
   strScalar "kind" 2, strScalar "Pod" 2,
   strScalar "metadata" 3, mapNode 4 [strScalar "name" 4, strScalar "mypod" 4],
   strScalar "spec" 5, mapNode 6
     [strScalar "containers" 6, seqNode 7 [mapNode 7
       [strScalar "name" 7, strScalar "main_app" 7,
        strScalar "image" 8, strScalar "registry.bigbrother.io/team/app:v1.2" 8,
        strScalar "resources" 9, mapNode 10
          [strScalar "requests" 10, mapNode 11 [strScalar "cpu" 11, intScalar "2" 11],
           strScalar "limits" 12, mapNode 13
             [strScalar "memory" 13, strScalar "256Mi" 13]]]]]]]

/-- Witness for C3 at a concrete fully valid minimal Pod manifest. -/
theorem c3_schema_valid_zero_diags_witness :
    specValidDoc goodPodDoc = true ∧
    (validateTop goodPodDoc = [] ∧ exitCode goodPodDoc = 0) :=
  ⟨by decide, c3_schema_valid_zero_diags goodPodDoc (by decide)⟩

/-! Claim C8: missing-required diagnostics carry no line; diagnostics for
present-but-malformed fields carry a line, and that line is the line of
a node of the validated document (each check anchors its error at the
looked-up value node's line). -/

mutual

/-- Lines of every node of a subtree. -/
def nodeLines : YNode → List Nat
  | YNode.node _ _ _ l cs => l :: linesOfList cs

def linesOfList : List YNode → List Nat
  | [] => []
  | c :: cs => nodeLines c ++ linesOfList cs

end

theorem mem_collectErrs {α : Type} {f : α → List VErr} {l : List α} {e : VErr}
    (h : e ∈ collectErrs f l) : ∃ x ∈ l, e ∈ f x := by
  induction l with
  | nil => simp [collectErrs] at h
  | cons x xs ih =>
    rw [collectErrs] at h
    rcases List.mem_append.mp h with hx | hxs
    · exact ⟨x, by simp, hx⟩
    · obtain ⟨y, hy, hey⟩ := ih hxs
      exact ⟨y, List.mem_cons_of_mem _ hy, hey⟩

/-- Document whose apiVersion value is the unsupported "v2" at line 1. -/
def badApiDoc : YNode :=
  docNode [mapNode 1 [strScalar "apiVersion" 1, strScalar "v2" 1]]

/-- Last character of a string, compared against a given character. -/
def lastCharIs (c : Char) (m : String) : Bool :=
  match m.data.reverse with
  | d :: _ => d == c
  | [] => false

/-- Appending a non-empty literal determines the last character. -/
theorem lastCharIs_append (c : Char) (a lit : String) (hne : lit.data ≠ []) :
    lastCharIs c (a ++ lit) = lastCharIs c lit := by
  unfold lastCharIs
  rw [String.data_append, List.reverse_append]
  cases hl : lit.data.reverse with
  | nil => exact absurd (by simpa using hl) hne
  | cons d t => simp [hl]

theorem cpuMsg_ne_memMust (pfx : String) :
    pfx ++ ".cpu must be int" ≠ pfx ++ ".memory must be string" := by
  intro h
  have h1 := congrArg String.data h
  rw [String.data_append, String.data_append] at h1
  exact absurd (List.append_cancel_left h1) (by decide)

theorem cpuMsg_ne_memFormat (pfx s : String) :
    pfx ++ ".cpu must be int" ≠ pfx ++ ".memory has invalid format '" ++ s ++ "'" := by
  intro h
  have h1 := congrArg (lastCharIs 't') h
  rw [lastCharIs_append 't' pfx ".cpu must be int" (by decide),
    lastCharIs_append 't' (pfx ++ ".memory has invalid format '" ++ s) "'"
      (by decide)] at h1
  exact absurd h1 (by decide)

theorem mem_dedupKeys (l : List String) (x : String) :
    x ∈ dedupKeys l ↔ x ∈ l := by
  induction l with
  | nil => simp [dedupKeys]
  | cons a l ih =>
    by_cases hx : x = a
    · simp [dedupKeys, hx]
    · simp [dedupKeys, List.mem_filter, hx, ih]

theorem mem_distinctKeys {ps : List (YNode × YNode)} {k : String} {v : YNode}
    (hf : mvFind ps k = some v) : k ∈ distinctKeys ps := by
  obtain ⟨kn, hm, hkv⟩ := mvFind_mem _ _ _ hf
  unfold distinctKeys
  rw [mem_dedupKeys]
  exact List.mem_map.mpr ⟨(kn, v), hm, hkv⟩

theorem mem_collectErrs_of {α : Type} {f : α → List VErr} {l : List α} {x : α}
    {e : VErr} (hx : x ∈ l) (he : e ∈ f x) : e ∈ collectErrs f l := by
  induction l with
  | nil => cases hx
  | cons a l ih =>
    rw [collectErrs]
    rcases List.mem_cons.mp hx with rfl | h
    · exact List.mem_append_left _ he
    · exact List.mem_append_right _ (ih h)

/-- C1 amended: for every resource set (a mapping) containing a key `cpu`
with value node v, the diagnostic "cpu must be int" at v's line is
recorded exactly when v is not a scalar or its text does not
`Atoi`-parse as an integer; the source-level type tag is never
consulted, so a quoted numeric string such as "4" yields no
diagnostic. -/
theorem c1_cpu_text_parse_only (pfx : String) (n : YNode)
    (ps : List (YNode × YNode)) (v : YNode)
    (hgm : getMapping n = some ps) (hf : mvFind ps "cpu" = some v) :
    errAt v.line (pfx ++ ".cpu must be int") ∈ validateResourceSet pfx n ↔
      ¬ (v.kind = YKind.scalar ∧ (goAtoi v.value).isSome = true) := by
  simp only [validateResourceSet, hgm, validateResourceSetWith]
  constructor
  · intro hmem
    rintro ⟨hs, hiso⟩
    obtain ⟨k, hk, hek⟩ := mem_collectErrs hmem
    unfold checkResourceKey at hek
    cases hkf : mvFind ps k with
    | none => simp only [hkf] at hek; simp at hek
    | some w =>
      simp only [hkf] at hek
      by_cases hc : k = "cpu"
      · subst hc
        have hwv : w = v := by
          rw [hf] at hkf
          injection hkf with h
          exact h.symm
        subst hwv
        rw [if_pos rfl] at hek
        have hgs : getScalarString w = some w.value := by
          simp [getScalarString, hs]
        simp only [hgs] at hek
        obtain ⟨w2, hg⟩ := Option.isSome_iff_exists.mp hiso
        simp only [hg] at hek
        simp at hek
      · rw [if_neg hc] at hek
        by_cases hm2 : k = "memory"
        · rw [if_pos hm2] at hek
          cases hgs : getScalarString w with
          | none =>
            simp only [hgs, List.mem_singleton, errAt, VErr.mk.injEq] at hek
            exact absurd hek.2 (cpuMsg_ne_memMust pfx)
          | some s2 =>
            simp only [hgs] at hek
            by_cases hr : reMem s2 = true
            · rw [if_pos hr] at hek; simp at hek
            · rw [if_neg hr] at hek
              simp only [List.mem_singleton, errAt, VErr.mk.injEq] at hek
              exact absurd hek.2 (cpuMsg_ne_memFormat pfx s2)
        · rw [if_neg hm2] at hek; simp at hek
  · intro hcond
    apply mem_collectErrs_of (mem_distinctKeys hf)
    unfold checkResourceKey
    simp only [hf, if_pos]
    by_cases hs : v.kind = YKind.scalar
    · have hgs : getScalarString v = some v.value := by simp [getScalarString, hs]
      simp only [hgs]
      cases hg : goAtoi v.value with
      | none => simp
      | some w => exact absurd ⟨hs, by simp [hg]⟩ hcond
    · have hgs : getScalarString v = none := by simp [getScalarString, hs]
      simp only [hgs]
      simp

/-- Resource set `{ cpu: [] }` whose cpu value is not a scalar. -/
def cpuSeqSet : YNode := mapNode 2 [strScalar "cpu" 4, seqNode 4 []]

/-- Resource set `{ cpu: abc }` whose cpu text does not parse. -/
def cpuBadSet : YNode := mapNode 2 [strScalar "cpu" 5, strScalar "abc" 5]

/-- Witness for the amended C1 theorem: a quoted numeric cpu produces no
diagnostic, while a non-scalar cpu and a non-numeric cpu each produce
the diagnostic at the value's line. -/
theorem c1_cpu_text_parse_only_witness :
    (¬ errAt 3 "containers.resources.requests.cpu must be int" ∈
        validateResourceSet "containers.resources.requests" cpuQuotedSet) ∧
    (errAt 4 "containers.resources.requests.cpu must be int" ∈
        validateResourceSet "containers.resources.requests" cpuSeqSet) ∧
    (errAt 5 "containers.resources.requests.cpu must be int" ∈
        validateResourceSet "containers.resources.requests" cpuBadSet) := by
  refine ⟨?_, ?_, ?_⟩
  · intro hmem
    exact (c1_cpu_text_parse_only "containers.resources.requests" cpuQuotedSet
      [(strScalar "cpu" 3, strScalar "4" 3)] (strScalar "4" 3) rfl rfl).mp hmem
      ⟨rfl, by decide⟩
  · exact (c1_cpu_text_parse_only "containers.resources.requests" cpuSeqSet
      [(strScalar "cpu" 4, seqNode 4 [])] (seqNode 4 []) rfl rfl).mpr (by decide)
  · exact (c1_cpu_text_parse_only "containers.resources.requests" cpuBadSet
      [(strScalar "cpu" 5, strScalar "abc" 5)] (strScalar "abc" 5) rfl rfl).mpr
      (by decide)


/-! Value-node anchoring: every structural wrong-kind diagnostic is
anchored exactly at the examined node, and every field check anchors
every diagnostic it emits exactly at the looked-up value node's line. -/

end PodValidator

